import Mathlib

/-!
Verification development for the `dps_zkteco_biometric_integration` module.

The Python sources (`src/models/zkteco_device_punching_logs.py` and
`src/models/zkteco_device_settings.py`) are shallowly embedded below:

* the Odoo relational store is modelled by explicit Lean lists of records
  (`Log`, `Attendance`, `Cmd`), threaded through ops as a state value;
* datetimes are modelled as `Nat` (seconds); the string representation
  `"YYYY-MM-DD HH:MM:SS"` used by the code compares exactly like the
  underlying instants, so `Nat` comparison is faithful;
* fallible operations return `Except`/`Option`; a raised `UserError`
  becomes `Except.error msg` carrying the message text of the source.
-/

namespace Zkteco

instance exceptDecEq {ε α : Type} [DecidableEq ε] [DecidableEq α] :
    DecidableEq (Except ε α) := fun a b =>
  match a, b with
  | Except.ok x, Except.ok y =>
    if h : x = y then Decidable.isTrue (by rw [h])
    else Decidable.isFalse (by intro hc; cases hc; exact h rfl)
  | Except.error x, Except.error y =>
    if h : x = y then Decidable.isTrue (by rw [h])
    else Decidable.isFalse (by intro hc; cases hc; exact h rfl)
  | Except.ok _, Except.error _ => Decidable.isFalse (by intro hc; cases hc)
  | Except.error _, Except.ok _ => Decidable.isFalse (by intro hc; cases hc)

/-- The `status` selection of `zkteco.device.logs`:
`'0'` Check In, `'1'` Check Out, `'2'` Punched. -/
inductive PLStatus where
  | checkIn
  | checkOut
  | punched
deriving DecidableEq, Repr

/-- The in/out label the pull cycle tracks per user (the source uses
the literal strings Check-in and Check-out). -/
inductive InOut where
  | checkIn
  | checkOut
deriving DecidableEq, Repr

/-- An `hr.attendance` row: employee link, required check-in,
optional check-out. -/
structure Attendance where
  attId : Nat
  employeeId : Nat
  checkIn : Nat
  checkOut : Option Nat
deriving DecidableEq, Repr

/-- A `zkteco.device.logs` row (the fields the embedded logic touches). -/
structure Log where
  logId : Nat
  employeeId : Option Nat
  punchTime : Option Nat
  status : PLStatus
  device : String
  calculated : Bool
deriving DecidableEq, Repr

/-- The `vals` dictionary passed to `zkteco.device.logs` create/write. -/
structure LogVals where
  employeeId : Option Nat
  punchTime : Option Nat
  status : PLStatus
  device : String
  calculated : Bool
deriving DecidableEq, Repr

/-- The persistent store the punch engine reads and writes:
punch logs and attendance rows, with fresh-id counters. -/
structure St where
  logs : List Log
  atts : List Attendance
  nextLogId : Nat
  nextAttId : Nat
deriving DecidableEq, Repr

/-- Model of the hr.attendance search filtered by employee, ordered by
check-in descending with limit 1: the employee attendance row with the
greatest check-in (the first such row when several tie). -/
def lastAtt (atts : List Attendance) (e : Nat) : Option Attendance :=
  (atts.filter (fun a => a.employeeId == e)).foldl
    (fun acc a =>
      match acc with
      | none => some a
      | some b => if b.checkIn < a.checkIn then some a else some b)
    none

/-- Model of the write that sets the open attendance check-out to
the punch time. -/
def closeAtt (i : Nat) (t : Nat) (atts : List Attendance) : List Attendance :=
  atts.map (fun a => if a.attId == i then { a with checkOut := some t } else a)

/-- Model of ZktecoDeviceLogs.create (zkteco_device_punching_logs.py,
lines 105-138):
`super().create(vals)` appends the row; when the row has both an employee and
a punch time, the most recent attendance of the employee decides whether a new
attendance is opened (status `'0'`), an open one is closed (status `'1'`),
or the punch is discarded as stale (status `'2'`); the status of the row is
updated in place. Returns the created row and the new store. -/
def ZktecoDeviceLogs.create (vals : LogVals) (s : St) : Log × St :=
  let newRec : Log :=
    ⟨s.nextLogId, vals.employeeId, vals.punchTime, vals.status, vals.device, vals.calculated⟩
  match vals.employeeId, vals.punchTime with
  | some e, some t =>
    match lastAtt s.atts e with
    | none =>
      let r := { newRec with status := PLStatus.checkIn }
      (r, ⟨s.logs ++ [r], s.atts ++ [⟨s.nextAttId, e, t, none⟩],
           s.nextLogId + 1, s.nextAttId + 1⟩)
    | some a =>
      if a.checkOut.isSome then
        let r := { newRec with status := PLStatus.checkIn }
        (r, ⟨s.logs ++ [r], s.atts ++ [⟨s.nextAttId, e, t, none⟩],
             s.nextLogId + 1, s.nextAttId + 1⟩)
      else if a.checkIn < t then
        let r := { newRec with status := PLStatus.checkOut }
        (r, ⟨s.logs ++ [r], closeAtt a.attId t s.atts, s.nextLogId + 1, s.nextAttId⟩)
      else
        let r := { newRec with status := PLStatus.punched }
        (r, ⟨s.logs ++ [r], s.atts, s.nextLogId + 1, s.nextAttId⟩)
  | _, _ => (newRec, ⟨s.logs ++ [newRec], s.atts, s.nextLogId + 1, s.nextAttId⟩)

/-- Model of ZktecoDeviceLogs.unlink (lines 94-102): deleting a selection of log
rows fails when any selected row is already calculated, and otherwise
removes exactly the selected rows. -/
def ZktecoDeviceLogs.unlink (store : List Log) (ids : List Nat) :
    Except String (List Log) :=
  let selected := store.filter (fun l => ids.contains l.logId)
  let alreadyProcessed := selected.filter (fun l => l.calculated)
  if alreadyProcessed.isEmpty then
    Except.ok (store.filter (fun l => !(ids.contains l.logId)))
  else
    Except.error ("You cannot delete attendance logs that are already processed. " ++
      "Please contact your administrator if you believe this is incorrect.")

/-- A `zkteco.attendance.machine` row: device-side textual user id,
owning device, linked employee and its name. -/
structure Machine where
  attendId : String
  deviceId : Nat
  employeeId : Nat
  employeeName : String
deriving DecidableEq, Repr

/-- A raw device punch as returned by `zk.get_attendance()`:
device user id and (already UTC-normalized) timestamp. -/
structure RawPunch where
  userId : String
  time : Nat
deriving DecidableEq, Repr

/-- An entry of `processed_attendance_list`. -/
structure Punch where
  userId : String
  time : Nat
  employeeId : Nat
deriving DecidableEq, Repr

/-- The duplicate-identifier message raised by the pull loop. -/
def dupMsg (names : List String) : String :=
  "Duplicate Biometric User ID detected for employees: " ++
    String.intercalate ", " names

/-- Model of the zkteco.attendance.machine search by device-side user id
and owning device. -/
def machinesFor (machines : List Machine) (devId : Nat) (uid : String) :
    List Machine :=
  machines.filter (fun m => m.attendId == uid && m.deviceId == devId)

/-- First loop of `action_pull_attendance_logs` (zkteco_device_settings.py,
lines 359-389): resolve each raw punch to an employee, raising on a
duplicate device-side user id, and skipping punches with no machine row. -/
def normalizePunches (machines : List Machine) (devId : Nat) :
    List RawPunch → Except String (List Punch)
  | [] => Except.ok []
  | r :: rs =>
    let ms := machinesFor machines devId r.userId
    if 1 < ms.length then
      Except.error (dupMsg (ms.map Machine.employeeName))
    else
      match ms with
      | [m] =>
        (normalizePunches machines devId rs).map
          (fun ps => ⟨r.userId, r.time, m.employeeId⟩ :: ps)
      | _ => normalizePunches machines devId rs

/-- The sort relation of the pull loop: device-user id major
(lexicographic, as Python compares the strings), UTC timestamp minor. -/
def punchLE (a b : Punch) : Prop :=
  a.userId < b.userId ∨ (a.userId = b.userId ∧ a.time ≤ b.time)

instance decPunchLE : DecidableRel punchLE := fun a b => by
  unfold punchLE
  infer_instance

instance totalPunchLE : IsTotal Punch punchLE where
  total a b := by
    rcases lt_trichotomy a.userId b.userId with h | h | h
    · exact Or.inl (Or.inl h)
    · rcases Nat.le_total a.time b.time with ht | ht
      · exact Or.inl (Or.inr ⟨h, ht⟩)
      · exact Or.inr (Or.inr ⟨h.symm, ht⟩)
    · exact Or.inr (Or.inl h)

instance transPunchLE : IsTrans Punch punchLE where
  trans a b c hab hbc := by
    rcases hab with h1 | ⟨h1, t1⟩
    · rcases hbc with h2 | ⟨h2, _⟩
      · exact Or.inl (h1.trans h2)
      · exact Or.inl (h2 ▸ h1)
    · rcases hbc with h2 | ⟨h2, t2⟩
      · exact Or.inl (h1 ▸ h2)
      · exact Or.inr ⟨h1.trans h2, t1.trans t2⟩

/-- Model of the Python sorted call on the processed punch list. -/
def sortedPunches (punches : List Punch) : List Punch :=
  List.insertionSort punchLE punches

/-- Per-user status tracker (a defaultdict of lists in the source),
keeping the sequence of in/out labels appended per device user id; the
loop reads only the last appended label. -/
abbrev Tracker := String → List InOut

def emptyTracker : Tracker := fun _ => []

/-- Status assignment of the pull loop: Check-in for the first punch of
a user, then the alternation of the previously assigned label. -/
def freshInOut (tr : Tracker) (u : String) : InOut :=
  match (tr u).getLast? with
  | none => InOut.checkIn
  | some InOut.checkIn => InOut.checkOut
  | some InOut.checkOut => InOut.checkIn

/-- Maps the tracker label to the stored status value: '0' for
Check-in, '1' for Check-out. -/
def statusVal : InOut → PLStatus
  | InOut.checkIn => PLStatus.checkIn
  | InOut.checkOut => PLStatus.checkOut

/-- The existing-log search filter: same employee and the exact same
punch time. -/
def matchKey (e t : Nat) (l : Log) : Bool :=
  l.employeeId == some e && l.punchTime == some t

/-- Model of the write of vals into one existing row (a plain field
update; zkteco.device.logs carries no write override). -/
def applyVals (vals : LogVals) (l : Log) : Log :=
  { l with employeeId := vals.employeeId, punchTime := vals.punchTime,
           status := vals.status, device := vals.device,
           calculated := vals.calculated }

/-- Body of the second loop of `action_pull_attendance_logs` (lines
395-433): assign the alternating status, then either write the existing
log in place or create a new one through `ZktecoDeviceLogs.create`. -/
def pullStep (deviceName : String) (acc : Tracker × St) (p : Punch) :
    Tracker × St :=
  let tr := acc.1
  let s := acc.2
  let status := freshInOut tr p.userId
  let tr' : Tracker := fun u => if u = p.userId then tr u ++ [status] else tr u
  let existing := s.logs.filter (matchKey p.employeeId p.time)
  let calcFlag :=
    match existing with
    | [] => false
    | l :: _ => l.calculated
  let vals : LogVals :=
    ⟨some p.employeeId, some p.time, statusVal status, deviceName, calcFlag⟩
  match existing with
  | [] => (tr', (ZktecoDeviceLogs.create vals s).2)
  | _ :: _ =>
    (tr', ⟨s.logs.map (fun l => if matchKey p.employeeId p.time l then applyVals vals l else l),
           s.atts, s.nextLogId, s.nextAttId⟩)

/-- Model of action_pull_attendance_logs (zkteco_device_settings.py,
lines 339-450), for one device with a connected client: raw punches are resolved
to employees, sorted by (user id, timestamp), then folded through
`pullStep`. An empty device log list raises, and the duplicate-identifier
error aborts the whole pull before anything is persisted. -/
def action_pull_attendance_logs (machines : List Machine) (devId : Nat)
    (deviceName : String) (raws : List RawPunch) (s : St) : Except String St :=
  if raws.isEmpty then
    Except.error "No attendance records found on the device."
  else
    (normalizePunches machines devId raws).map
      (fun punches =>
        (List.foldl (pullStep deviceName) (emptyTracker, s) (sortedPunches punches)).2)

/-- Whether the log store already holds a row at key (employee, time). -/
def hasKey (s : St) (e t : Nat) : Prop :=
  s.logs.filter (matchKey e t) ≠ []

/-- The alternating label sequence: Check-in, Check-out, Check-in, ... -/
def altStatuses (n : Nat) : List InOut :=
  (List.range n).map (fun i => if i % 2 = 0 then InOut.checkIn else InOut.checkOut)

/-- Position k of the alternation (0-based): Check-in at even positions. -/
def altElem (k : Nat) : InOut :=
  if k % 2 = 0 then InOut.checkIn else InOut.checkOut
/-- Status values of the zkteco.dcmmand queue. -/
inductive CmdStatus where
  | pending
  | executed
  | success
  | failed
deriving DecidableEq, Repr

/-- A command-queue row (model zkteco.dcmmand). -/
structure Cmd where
  cmdId : Nat
  name : String
  deviceId : Nat
  status : CmdStatus
  executionLog : String
deriving DecidableEq, Repr

/-- The command-queue store. -/
structure CmdSt where
  cmds : List Cmd
  nextCmdId : Nat
deriving DecidableEq, Repr

/-- Model of the pending-command search for a given device and command
name. -/
def pendingNamed (s : CmdSt) (devId : Nat) (nm : String) : List Cmd :=
  s.cmds.filter
    (fun c => c.deviceId == devId && c.name == nm && c.status == CmdStatus.pending)

/-- Model of action_zkteco_device_user_data_download (lines 764-778): create a
pending USERINFO command only when none is pending for the device. -/
def action_zkteco_device_user_data_download (devId : Nat) (s : CmdSt) : CmdSt :=
  if (pendingNamed s devId "USERINFO").isEmpty then
    ⟨s.cmds ++ [⟨s.nextCmdId, "USERINFO", devId, CmdStatus.pending,
        "C:" ++ toString s.nextCmdId ++ ":DATA QUERY USERINFO\n"⟩],
     s.nextCmdId + 1⟩
  else s

/-- Model of action_check_device_connection (lines 780-794): create a pending
CHECK command only when none is pending for the device. -/
def action_check_device_connection (devId : Nat) (s : CmdSt) : CmdSt :=
  if (pendingNamed s devId "CHECK").isEmpty then
    ⟨s.cmds ++ [⟨s.nextCmdId, "CHECK", devId, CmdStatus.pending,
        "C:" ++ toString s.nextCmdId ++ ":CHECK\n"⟩],
     s.nextCmdId + 1⟩
  else s

/-- A sequence of invocations of the two command-creating actions:
`(true, d)` runs the user-data download on device `d`, `(false, d)` the
connection check. -/
def runCmdActions (s : CmdSt) : List (Bool × Nat) → CmdSt
  | [] => s
  | a :: rest =>
    runCmdActions
      (if a.1 then action_zkteco_device_user_data_download a.2 s
       else action_check_device_connection a.2 s) rest

/-- Standard base64 alphabet, index to character. -/
def b64CharOf (n : Nat) : Char :=
  if n < 26 then Char.ofNat (65 + n)
  else if n < 52 then Char.ofNat (97 + (n - 26))
  else if n < 62 then Char.ofNat (48 + (n - 52))
  else if n = 62 then '+'
  else '/'

/-- Standard base64 alphabet, character to index. -/
def b64Index (c : Char) : Option Nat :=
  if 65 ≤ c.toNat ∧ c.toNat ≤ 90 then some (c.toNat - 65)
  else if 97 ≤ c.toNat ∧ c.toNat ≤ 122 then some (c.toNat - 97 + 26)
  else if 48 ≤ c.toNat ∧ c.toNat ≤ 57 then some (c.toNat - 48 + 52)
  else if c = '+' then some 62
  else if c = '/' then some 63
  else none

/-- Model of base64.b64decode on a correctly padded string: blocks of four
characters, `'='` padding allowed only in the final block. -/
def b64decodeChars : List Char → Option (List Nat)
  | [] => some []
  | c1 :: c2 :: c3 :: c4 :: rest =>
    match b64Index c1, b64Index c2 with
    | some n1, some n2 =>
      if c3 = '=' then
        if c4 = '=' ∧ rest = [] then some [n1 * 4 + n2 / 16] else none
      else
        match b64Index c3 with
        | some n3 =>
          if c4 = '=' then
            if rest = [] then some [n1 * 4 + n2 / 16, n2 % 16 * 16 + n3 / 4] else none
          else
            match b64Index c4 with
            | some n4 =>
              (b64decodeChars rest).map
                (fun bs => (n1 * 4 + n2 / 16) :: (n2 % 16 * 16 + n3 / 4) ::
                  (n3 % 4 * 64 + n4) :: bs)
            | none => none
        | none => none
    | _, _ => none
  | _ => none

/-- Model of base64.b64encode: canonical encoding of a byte list. -/
def b64encodeBytes : List Nat → List Char
  | [] => []
  | [b1] => [b64CharOf (b1 / 4), b64CharOf (b1 % 4 * 16), '=', '=']
  | [b1, b2] =>
    [b64CharOf (b1 / 4), b64CharOf (b1 % 4 * 16 + b2 / 16), b64CharOf (b2 % 16 * 4), '=']
  | b1 :: b2 :: b3 :: rest =>
    b64CharOf (b1 / 4) :: b64CharOf (b1 % 4 * 16 + b2 / 16) ::
      b64CharOf (b2 % 16 * 4 + b3 / 64) :: b64CharOf (b3 % 64) :: b64encodeBytes rest

/-- Model of the private padding-repair helper (zkteco_device_settings.py,
lines 680-686):
append `'='` up to a multiple of four, decode, re-encode canonically.
`none` models the `base64.b64decode` exception. -/
def base64_fix_padding (s : String) : Option String :=
  let paddingNeeded := s.length % 4
  let padded :=
    if paddingNeeded ≠ 0 then s ++ String.mk (List.replicate (4 - paddingNeeded) '=')
    else s
  (b64decodeChars padded.toList).map (fun bs => String.mk (b64encodeBytes bs))

/-- Numeric value of a maximal decimal run (Python int on the run). -/
def digitsToNat (cs : List Char) : Nat :=
  cs.foldl (fun n c => 10 * n + (c.toNat - 48)) 0

/-- Numeric successor of an accumulated (reversed) decimal run; empty run
contributes nothing. -/
def flushRun (acc : List Char) : List Char :=
  if acc.isEmpty then [] else Nat.toDigits 10 (digitsToNat acc.reverse + 1)

/-- Worker for `incrementRuns`: `acc` holds the current maximal decimal
run, reversed. -/
def incrementRunsAux (acc : List Char) : List Char → List Char
  | [] => flushRun acc
  | c :: cs =>
    if c.isDigit then incrementRunsAux (c :: acc) cs
    else flushRun acc ++ c :: incrementRunsAux [] cs

/-- Model of the regex substitution inside generate_next_user_id:
replace every maximal decimal run by its numeric successor. -/
def incrementRuns (cs : List Char) : List Char :=
  incrementRunsAux [] cs

/-- The generate_next_user_id helper (zkteco_device_settings.py,
lines 264-273). -/
def generate_next_user_id (s : String) : String :=
  String.mk (incrementRuns s.toList)

/-- Python string less-than: lexicographic comparison by code point. -/
def pyCharListLt : List Char → List Char → Bool
  | [], [] => false
  | [], _ :: _ => true
  | _ :: _, [] => false
  | a :: as, b :: bs =>
    if a.toNat < b.toNat then true
    else if b.toNat < a.toNat then false
    else pyCharListLt as bs

def pyStrLe (s t : String) : Bool :=
  pyCharListLt s.toList t.toList || s == t

/-- Python list.sort on strings (ascending lexicographic). -/
def pySortStrings (l : List String) : List String :=
  List.insertionSort (fun a b => pyStrLe a b = true) l

/-- Worker for `collisionSkip`, structurally recursive on a fuel value
kept equal to `ids.length + 2 - attempt`; the fuel never reaches zero
before the `attempt ≤ ids.length` guard fails, so the extra base case is
unreachable. -/
def collisionSkipAux (ids : List String) : Nat → String → Nat → Option String
  | 0, _, _ => none
  | fuel + 1, cand, attempt =>
    if ids.contains cand then
      if attempt ≤ ids.length then
        match ids.get? (ids.length - attempt) with
        | some prev => collisionSkipAux ids fuel (generate_next_user_id prev) (attempt + 1)
        | none => none
      else none
    else some cand

/-- The unbounded collision-skip loop of `action_synchronize_employees`
(lines 285-289): while the candidate is in use, regenerate from the next
lower entry of the sorted id list; running off the list (Python
`IndexError`) yields `none`. -/
def collisionSkip (ids : List String) (cand : String) (attempt : Nat) :
    Option String :=
  collisionSkipAux ids (ids.length + 2 - attempt) cand attempt

/-- The inner per-employee scan loop, iterated once per employee (lines
291-295): repeatedly test the successor of the candidate and move onto it when
it is already in use. -/
def employeeScanSkip (ids : List String) : Nat → String → String
  | 0, cand => cand
  | n + 1, cand =>
    let testUserId := generate_next_user_id cand
    employeeScanSkip ids n (if ids.contains testUserId then testUserId else cand)

/-- The per-employee allocation loop (lines 298-323): each employee whose
flag is `true` already has a device record and is skipped; every other
employee is exported as `set_user(max_uid, ..., next_user_id_str)` with
`max_uid` pre-incremented and the textual id advanced afterwards. Returns
the emitted `(uid, userId)` pairs. -/
def emitNewUsers : List Bool → Nat → String → List (Nat × String)
  | [], _, _ => []
  | hasRecord :: rest, maxUid, cand =>
    if hasRecord then emitNewUsers rest maxUid cand
    else (maxUid + 1, cand) :: emitNewUsers rest (maxUid + 1) (generate_next_user_id cand)

/-- Model of action_synchronize_employees (zkteco_device_settings.py,
lines 241-337), identifier-allocation core: given the existing device
`(uid, user_id)` registrations and the per-employee has-a-record flags,
compute the `set_user` calls emitted. `none` models the `IndexError`
escape of the collision loop (surfaced as a `UserError`). -/
def action_synchronize_employees (existingUsers : List (Nat × String))
    (employeesRegistered : List Bool) : Option (List (Nat × String)) :=
  match existingUsers with
  | [] => some (emitNewUsers employeesRegistered 0 "1")
  | _ :: _ =>
    let uidList := List.insertionSort (fun a b : Nat => a ≤ b) (existingUsers.map Prod.fst)
    let idList := pySortStrings (existingUsers.map Prod.snd)
    let maxUid := uidList.getLast?.getD 0
    let c0 := generate_next_user_id (idList.getLast?.getD "")
    (collisionSkip idList c0 2).map
      (fun cand =>
        emitNewUsers employeesRegistered maxUid
          (employeeScanSkip idList employeesRegistered.length cand))



/-! Helper lemmas. -/

theorem create_logs_eq (vals : LogVals) (s : St) :
    (ZktecoDeviceLogs.create vals s).2.logs =
      s.logs ++ [(ZktecoDeviceLogs.create vals s).1] := by
  obtain ⟨ve, vt, vst, vd, vc⟩ := vals
  unfold ZktecoDeviceLogs.create
  cases ve with
  | none => rfl
  | some e =>
    cases vt with
    | none => rfl
    | some t =>
      dsimp only
      cases lastAtt s.atts e with
      | none => rfl
      | some a =>
        dsimp only
        split
        · rfl
        · split <;> rfl

theorem create_fields_eq (vals : LogVals) (s : St) :
    (ZktecoDeviceLogs.create vals s).1.logId = s.nextLogId ∧
    (ZktecoDeviceLogs.create vals s).1.employeeId = vals.employeeId ∧
    (ZktecoDeviceLogs.create vals s).1.punchTime = vals.punchTime := by
  obtain ⟨ve, vt, vst, vd, vc⟩ := vals
  unfold ZktecoDeviceLogs.create
  cases ve with
  | none => exact ⟨rfl, rfl, rfl⟩
  | some e =>
    cases vt with
    | none => exact ⟨rfl, rfl, rfl⟩
    | some t =>
      dsimp only
      cases lastAtt s.atts e with
      | none => exact ⟨rfl, rfl, rfl⟩
      | some a =>
        dsimp only
        split
        · exact ⟨rfl, rfl, rfl⟩
        · split <;> exact ⟨rfl, rfl, rfl⟩

/-- C1: creating a `zkteco.device.logs` row with a linked employee and a
punch time reconciles `hr.attendance`: with no attendance or a closed most
recent one, a new attendance opens at the punch time and the log becomes
Check In; with an open one and a strictly later punch, its check-out is set
and the log becomes Check Out; otherwise nothing is touched and the log
becomes Punched. In every case the row itself is appended to the log store. -/
theorem create_attendance_reconciliation (vals : LogVals) (s : St) (e t : Nat)
    (he : vals.employeeId = some e) (ht : vals.punchTime = some t) :
    ((lastAtt s.atts e = none ∨ (∃ a, lastAtt s.atts e = some a ∧ a.checkOut.isSome)) →
      (ZktecoDeviceLogs.create vals s).1.status = PLStatus.checkIn ∧
      (ZktecoDeviceLogs.create vals s).2.atts = s.atts ++ [⟨s.nextAttId, e, t, none⟩]) ∧
    (∀ a, lastAtt s.atts e = some a → a.checkOut = none → a.checkIn < t →
      (ZktecoDeviceLogs.create vals s).1.status = PLStatus.checkOut ∧
      (ZktecoDeviceLogs.create vals s).2.atts = closeAtt a.attId t s.atts) ∧
    (∀ a, lastAtt s.atts e = some a → a.checkOut = none → t ≤ a.checkIn →
      (ZktecoDeviceLogs.create vals s).1.status = PLStatus.punched ∧
      (ZktecoDeviceLogs.create vals s).2.atts = s.atts) ∧
    (ZktecoDeviceLogs.create vals s).2.logs =
      s.logs ++ [(ZktecoDeviceLogs.create vals s).1] := by
  obtain ⟨ve, vt, vst, vd, vc⟩ := vals
  simp only [LogVals.employeeId] at he
  simp only [LogVals.punchTime] at ht
  subst he
  subst ht
  refine ⟨?_, ?_, ?_, create_logs_eq _ _⟩
  · rintro (hnone | ⟨a, ha, hout⟩)
    · simp [ZktecoDeviceLogs.create, hnone]
    · simp [ZktecoDeviceLogs.create, ha, hout]
  · intro a ha hout hlt
    simp [ZktecoDeviceLogs.create, ha, hout, hlt]
  · intro a ha hout hle
    simp [ZktecoDeviceLogs.create, ha, hout, Nat.not_lt.mpr hle]

/-- Witness for `create_attendance_reconciliation` at a concrete input:
an employee with no attendance yet punches at time 900. -/
theorem create_attendance_reconciliation_witness :
    (⟨some 7, some 900, PLStatus.punched, "D", false⟩ : LogVals).employeeId = some 7 ∧
    lastAtt (⟨[], [], 0, 0⟩ : St).atts 7 = none ∧
    (ZktecoDeviceLogs.create ⟨some 7, some 900, PLStatus.punched, "D", false⟩
        ⟨[], [], 0, 0⟩).1.status = PLStatus.checkIn ∧
    (ZktecoDeviceLogs.create ⟨some 7, some 900, PLStatus.punched, "D", false⟩
        ⟨[], [], 0, 0⟩).2.atts = [] ++ [⟨0, 7, 900, none⟩] :=
  ⟨rfl, rfl,
    ((create_attendance_reconciliation ⟨some 7, some 900, PLStatus.punched, "D", false⟩
        ⟨[], [], 0, 0⟩ 7 900 rfl rfl).1 (Or.inl rfl)).1,
    ((create_attendance_reconciliation ⟨some 7, some 900, PLStatus.punched, "D", false⟩
        ⟨[], [], 0, 0⟩ 7 900 rfl rfl).1 (Or.inl rfl)).2⟩

/-- C9: creating a log row with no linked employee or no punch time only
appends the row, leaves every attendance untouched, and keeps the status
exactly as supplied in `vals`. -/
theorem create_without_employee_or_time_frame (vals : LogVals) (s : St)
    (h : vals.employeeId = none ∨ vals.punchTime = none) :
    (ZktecoDeviceLogs.create vals s).1 =
      ⟨s.nextLogId, vals.employeeId, vals.punchTime, vals.status, vals.device,
        vals.calculated⟩ ∧
    (ZktecoDeviceLogs.create vals s).2 =
      ⟨s.logs ++ [(ZktecoDeviceLogs.create vals s).1], s.atts, s.nextLogId + 1,
        s.nextAttId⟩ := by
  obtain ⟨ve, vt, vst, vd, vc⟩ := vals
  rcases h with h | h
  · simp only [LogVals.employeeId] at h
    subst h
    exact ⟨rfl, rfl⟩
  · simp only [LogVals.punchTime] at h
    subst h
    cases ve with
    | none => exact ⟨rfl, rfl⟩
    | some e => exact ⟨rfl, rfl⟩

/-- Witness for `create_without_employee_or_time_frame`: a log with a
punch time but no employee, created over a store with one open attendance. -/
theorem create_without_employee_or_time_frame_witness :
    (ZktecoDeviceLogs.create ⟨none, some 5, PLStatus.punched, "D", false⟩
        ⟨[], [⟨0, 1, 3, none⟩], 0, 1⟩).1 =
      ⟨0, none, some 5, PLStatus.punched, "D", false⟩ ∧
    (ZktecoDeviceLogs.create ⟨none, some 5, PLStatus.punched, "D", false⟩
        ⟨[], [⟨0, 1, 3, none⟩], 0, 1⟩).2 =
      ⟨[] ++ [(ZktecoDeviceLogs.create ⟨none, some 5, PLStatus.punched, "D", false⟩
          ⟨[], [⟨0, 1, 3, none⟩], 0, 1⟩).1], [⟨0, 1, 3, none⟩], 1, 1⟩ :=
  create_without_employee_or_time_frame ⟨none, some 5, PLStatus.punched, "D", false⟩
    ⟨[], [⟨0, 1, 3, none⟩], 0, 1⟩ (Or.inl rfl)


/-- C6: unlinking a selection of log rows fails with the deletion-guard
message as soon as one selected row is calculated (no row is removed, the
store is unchanged), and succeeds removing exactly the selection when no
selected row is calculated. -/
theorem unlink_calculated_guard (store : List Log) (ids : List Nat) :
    ((∃ l ∈ store, ids.contains l.logId = true ∧ l.calculated = true) →
      ZktecoDeviceLogs.unlink store ids =
        Except.error ("You cannot delete attendance logs that are already processed. " ++
          "Please contact your administrator if you believe this is incorrect.")) ∧
    ((∀ l ∈ store, ids.contains l.logId = true → l.calculated = false) →
      ZktecoDeviceLogs.unlink store ids =
        Except.ok (store.filter (fun l => !(ids.contains l.logId)))) := by
  constructor
  · rintro ⟨l, hl, hc, hcalc⟩
    have hmem : l ∈ (store.filter (fun l => ids.contains l.logId)).filter
        (fun l => l.calculated) := by
      rw [List.mem_filter, List.mem_filter]
      exact ⟨⟨hl, hc⟩, hcalc⟩
    have hne : ((store.filter (fun l => ids.contains l.logId)).filter
        (fun l => l.calculated)).isEmpty = false := by
      rcases hq : (store.filter (fun l => ids.contains l.logId)).filter
          (fun l => l.calculated) with _ | ⟨x, xs⟩
      · rw [hq] at hmem
        cases hmem
      · rw [hq]
        rfl
    unfold ZktecoDeviceLogs.unlink
    simp only [hne]
    simp
  · intro h
    have hnil : (store.filter (fun l => ids.contains l.logId)).filter
        (fun l => l.calculated) = [] := by
      rw [List.filter_eq_nil_iff]
      intro a ha
      rw [List.mem_filter] at ha
      rw [h a ha.1 ha.2]
      exact Bool.false_ne_true
    unfold ZktecoDeviceLogs.unlink
    simp only [hnil]
    simp

/-- Witness for `unlink_calculated_guard`: a two-row store, one calculated
row selected (deletion refused), and separately a non-calculated selection
(deletion succeeds and removes exactly the selected row). -/
theorem unlink_calculated_guard_witness :
    (ZktecoDeviceLogs.unlink
        [⟨0, some 1, some 5, PLStatus.checkIn, "D", true⟩,
         ⟨1, some 1, some 9, PLStatus.checkOut, "D", false⟩] [0, 1] =
      Except.error ("You cannot delete attendance logs that are already processed. " ++
        "Please contact your administrator if you believe this is incorrect.")) ∧
    (ZktecoDeviceLogs.unlink
        [⟨0, some 1, some 5, PLStatus.checkIn, "D", true⟩,
         ⟨1, some 1, some 9, PLStatus.checkOut, "D", false⟩] [1] =
      Except.ok [⟨0, some 1, some 5, PLStatus.checkIn, "D", true⟩]) :=
  ⟨(unlink_calculated_guard
      [⟨0, some 1, some 5, PLStatus.checkIn, "D", true⟩,
       ⟨1, some 1, some 9, PLStatus.checkOut, "D", false⟩] [0, 1]).1
      ⟨⟨0, some 1, some 5, PLStatus.checkIn, "D", true⟩, by decide, by decide, rfl⟩,
   (unlink_calculated_guard
      [⟨0, some 1, some 5, PLStatus.checkIn, "D", true⟩,
       ⟨1, some 1, some 9, PLStatus.checkOut, "D", false⟩] [1]).2
      (by decide)⟩

/-- C4 is a code bug: on a device whose registered textual ids are `"9"`
and `"11"`, with one unregistered employee, the skip loop of the allocator moves
the candidate onto the in-use id `"11"` and `set_user` is issued with it;
the emitted textual id is already present in the input set. -/
theorem synchronize_employees_emits_used_id :
    action_synchronize_employees [(1, "9"), (2, "11")] [false] = some [(3, "11")] ∧
    ([(1, "9"), (2, "11")].map Prod.snd).contains "11" = true := by
  decide


/-- C8: for a string whose length is not a multiple of four, the repair
appends `'='` up to a multiple of four and then decodes that padded string
and re-encodes canonically; in particular `"abc"` is padded to `"abc="`
and decodes without error. -/
theorem base64_fix_padding_pads_and_reencodes :
    (∀ s : String, s.length % 4 ≠ 0 →
      (s ++ String.mk (List.replicate (4 - s.length % 4) '=')).length % 4 = 0 ∧
      base64_fix_padding s =
        (b64decodeChars
            (s ++ String.mk (List.replicate (4 - s.length % 4) '=')).toList).map
          (fun bs => String.mk (b64encodeBytes bs))) ∧
    (("abc" : String) ++
        String.mk (List.replicate (4 - ("abc" : String).length % 4) '=') = "abc=" ∧
      base64_fix_padding "abc" = some "abc=") := by
  constructor
  · intro s h
    constructor
    · rw [String.length_append]
      simp only [String.length_mk, List.length_replicate]
      omega
    · unfold base64_fix_padding
      simp only [h, ne_eq, not_false_iff, if_true, ite_true]
  · exact ⟨by decide, by decide⟩

/-- Witness for `base64_fix_padding_pads_and_reencodes` at `s = "abcde"`
(length 5, needs three pad characters). -/
theorem base64_fix_padding_pads_and_reencodes_witness :
    ("abcde" : String).length % 4 ≠ 0 ∧
    (("abcde" : String) ++
        String.mk (List.replicate (4 - ("abcde" : String).length % 4) '=')).length % 4 = 0 ∧
    base64_fix_padding "abcde" =
      (b64decodeChars
          (("abcde" : String) ++
            String.mk (List.replicate (4 - ("abcde" : String).length % 4) '=')).toList).map
        (fun bs => String.mk (b64encodeBytes bs)) :=
  ⟨by decide,
   (base64_fix_padding_pads_and_reencodes.1 "abcde" (by decide)).1,
   (base64_fix_padding_pads_and_reencodes.1 "abcde" (by decide)).2⟩


theorem pendingNamed_cmds (cmds : List Cmd) (i devId : Nat) (nm : String) :
    pendingNamed ⟨cmds, i⟩ devId nm =
      cmds.filter
        (fun c => c.deviceId == devId && c.name == nm && c.status == CmdStatus.pending) :=
  rfl

theorem filter_append_single_le (cmds : List Cmd) (c : Cmd) (pred : Cmd → Bool)
    (hzero : pred c = true → cmds.filter pred = []) :
    ((cmds ++ [c]).filter pred).length ≤ max (cmds.filter pred).length 1 := by
  rw [List.filter_append]
  by_cases hp : pred c = true
  · rw [hzero hp, List.length_append]
    simp [hp]
  · rw [List.length_append]
    have hnil : List.filter pred [c] = [] := by simp [hp]
    rw [hnil]
    simp

theorem download_pending_le (d : Nat) (s : CmdSt) (devId : Nat) (nm : String) :
    (pendingNamed (action_zkteco_device_user_data_download d s) devId nm).length ≤
      max (pendingNamed s devId nm).length 1 := by
  unfold action_zkteco_device_user_data_download
  split
  · rename_i hempty
    rw [pendingNamed_cmds]
    apply filter_append_single_le
    intro hp
    simp only [Bool.and_eq_true, beq_iff_eq] at hp
    have hzero : pendingNamed s d "USERINFO" = [] := List.isEmpty_iff.mp hempty
    rw [← hp.1.1, ← hp.1.2]
    exact hzero
  · exact le_max_left _ _

theorem check_pending_le (d : Nat) (s : CmdSt) (devId : Nat) (nm : String) :
    (pendingNamed (action_check_device_connection d s) devId nm).length ≤
      max (pendingNamed s devId nm).length 1 := by
  unfold action_check_device_connection
  split
  · rename_i hempty
    rw [pendingNamed_cmds]
    apply filter_append_single_le
    intro hp
    simp only [Bool.and_eq_true, beq_iff_eq] at hp
    have hzero : pendingNamed s d "CHECK" = [] := List.isEmpty_iff.mp hempty
    rw [← hp.1.1, ← hp.1.2]
    exact hzero
  · exact le_max_left _ _

theorem runCmdActions_pending_le (seq : List (Bool × Nat)) :
    ∀ (s : CmdSt) (devId : Nat) (nm : String),
      (pendingNamed s devId nm).length ≤ 1 →
      (pendingNamed (runCmdActions s seq) devId nm).length ≤ 1 := by
  induction seq with
  | nil => intro s devId nm h; exact h
  | cons a rest ih =>
    intro s devId nm h
    show (pendingNamed (runCmdActions _ rest) devId nm).length ≤ 1
    apply ih
    cases ha : a.1
    · simp only [ha, if_false, Bool.false_eq_true]
      exact le_trans (check_pending_le a.2 s devId nm) (max_le h (le_refl 1))
    · simp only [ha, if_true]
      exact le_trans (download_pending_le a.2 s devId nm) (max_le h (le_refl 1))


/-- C10: the user-data-download and check-connection actions create a new
pending command only when no pending command of that name exists for the
device (otherwise the store is unchanged), so any sequence of invocations
of either action, on any devices, keeps at most one pending USERINFO and
at most one pending CHECK command per device. -/
theorem command_actions_single_pending :
    (∀ (devId : Nat) (s : CmdSt), pendingNamed s devId "USERINFO" ≠ [] →
      action_zkteco_device_user_data_download devId s = s) ∧
    (∀ (devId : Nat) (s : CmdSt), pendingNamed s devId "CHECK" ≠ [] →
      action_check_device_connection devId s = s) ∧
    (∀ (s : CmdSt) (seq : List (Bool × Nat)) (devId : Nat) (nm : String),
      (pendingNamed s devId nm).length ≤ 1 →
      (pendingNamed (runCmdActions s seq) devId nm).length ≤ 1) := by
  refine ⟨?_, ?_, ?_⟩
  · intro devId s h
    unfold action_zkteco_device_user_data_download
    rw [if_neg]
    intro hempty
    exact h (List.isEmpty_iff.mp hempty)
  · intro devId s h
    unfold action_check_device_connection
    rw [if_neg]
    intro hempty
    exact h (List.isEmpty_iff.mp hempty)
  · intro s seq devId nm h
    exact runCmdActions_pending_le seq s devId nm h

/-- Witness for `command_actions_single_pending`: from an empty queue,
running download, check, download, check on device 3 leaves exactly one
pending command of each name; a second download with one already pending
is a no-op. -/
theorem command_actions_single_pending_witness :
    pendingNamed ⟨[⟨0, "USERINFO", 3, CmdStatus.pending, "C:0:DATA QUERY USERINFO\n"⟩], 1⟩
        3 "USERINFO" ≠ [] ∧
    action_zkteco_device_user_data_download 3
        ⟨[⟨0, "USERINFO", 3, CmdStatus.pending, "C:0:DATA QUERY USERINFO\n"⟩], 1⟩ =
      ⟨[⟨0, "USERINFO", 3, CmdStatus.pending, "C:0:DATA QUERY USERINFO\n"⟩], 1⟩ ∧
    (pendingNamed (⟨[], 0⟩ : CmdSt) 3 "USERINFO").length ≤ 1 ∧
    (pendingNamed
        (runCmdActions ⟨[], 0⟩ [(true, 3), (false, 3), (true, 3), (false, 3)])
        3 "USERINFO").length ≤ 1 :=
  ⟨by decide,
   command_actions_single_pending.1 3
     ⟨[⟨0, "USERINFO", 3, CmdStatus.pending, "C:0:DATA QUERY USERINFO\n"⟩], 1⟩ (by decide),
   by decide,
   command_actions_single_pending.2.2 ⟨[], 0⟩ [(true, 3), (false, 3), (true, 3), (false, 3)]
     3 "USERINFO" (by decide)⟩


theorem pullStep_eq_write (name : String) (tr : Tracker) (s : St) (p : Punch)
    (l : Log) (ls : List Log)
    (hex : s.logs.filter (matchKey p.employeeId p.time) = l :: ls) :
    pullStep name (tr, s) p =
      ((fun u => if u = p.userId then tr u ++ [freshInOut tr p.userId] else tr u),
       ⟨s.logs.map (fun x => if matchKey p.employeeId p.time x then
            applyVals ⟨some p.employeeId, some p.time,
              statusVal (freshInOut tr p.userId), name, l.calculated⟩ x else x),
        s.atts, s.nextLogId, s.nextAttId⟩) := by
  simp only [pullStep, hex]

theorem pullStep_eq_create (name : String) (tr : Tracker) (s : St) (p : Punch)
    (hex : s.logs.filter (matchKey p.employeeId p.time) = []) :
    pullStep name (tr, s) p =
      ((fun u => if u = p.userId then tr u ++ [freshInOut tr p.userId] else tr u),
       (ZktecoDeviceLogs.create
          ⟨some p.employeeId, some p.time, statusVal (freshInOut tr p.userId),
            name, false⟩ s).2) := by
  simp only [pullStep, hex]

theorem applyVals_matchKey (p : Punch) (vst : PLStatus) (nm : String) (cf : Bool)
    (x : Log) (hx : matchKey p.employeeId p.time x = true) (e t : Nat) :
    matchKey e t (applyVals ⟨some p.employeeId, some p.time, vst, nm, cf⟩ x) =
      matchKey e t x := by
  unfold matchKey at hx ⊢
  simp only [Bool.and_eq_true, beq_iff_eq] at hx
  unfold applyVals
  simp only
  rw [hx.1, hx.2]

theorem writeMap_matchKey (p : Punch) (vst : PLStatus) (nm : String) (cf : Bool)
    (e t : Nat) (x : Log) :
    matchKey e t (if matchKey p.employeeId p.time x then
        applyVals ⟨some p.employeeId, some p.time, vst, nm, cf⟩ x else x) =
      matchKey e t x := by
  by_cases hx : matchKey p.employeeId p.time x = true
  · rw [if_pos hx, applyVals_matchKey p vst nm cf x hx e t]
  · rw [if_neg hx]

theorem hasKey_pullStep (name : String) (tr : Tracker) (s : St) (p : Punch)
    (e t : Nat) (h : hasKey s e t) :
    hasKey (pullStep name (tr, s) p).2 e t := by
  cases hex : s.logs.filter (matchKey p.employeeId p.time) with
  | nil =>
    rw [pullStep_eq_create name tr s p hex]
    unfold hasKey at h ⊢
    rw [create_logs_eq, List.filter_append]
    intro hcontra
    exact h (List.append_eq_nil.mp hcontra).1
  | cons l ls =>
    rw [pullStep_eq_write name tr s p l ls hex]
    unfold hasKey at h ⊢
    rw [show ((⟨s.logs.map (fun x => if matchKey p.employeeId p.time x then
        applyVals ⟨some p.employeeId, some p.time,
          statusVal (freshInOut tr p.userId), name, l.calculated⟩ x else x),
        s.atts, s.nextLogId, s.nextAttId⟩ : St)).logs =
        s.logs.map (fun x => if matchKey p.employeeId p.time x then
          applyVals ⟨some p.employeeId, some p.time,
            statusVal (freshInOut tr p.userId), name, l.calculated⟩ x else x) from rfl]
    rw [List.filter_map]
    intro hcontra
    rw [List.map_eq_nil_iff] at hcontra
    have hfe : s.logs.filter (fun x => matchKey e t
        (if matchKey p.employeeId p.time x then
          applyVals ⟨some p.employeeId, some p.time,
            statusVal (freshInOut tr p.userId), name, l.calculated⟩ x else x)) =
        s.logs.filter (matchKey e t) := by
      apply List.filter_congr
      intro x hxmem
      exact writeMap_matchKey p _ name l.calculated e t x
    simp only [Function.comp_def] at hcontra
    rw [hfe] at hcontra
    exact h hcontra


theorem pullStep_establishes (name : String) (tr : Tracker) (s : St) (p : Punch) :
    hasKey (pullStep name (tr, s) p).2 p.employeeId p.time := by
  cases hex : s.logs.filter (matchKey p.employeeId p.time) with
  | nil =>
    rw [pullStep_eq_create name tr s p hex]
    unfold hasKey
    rw [create_logs_eq, List.filter_append]
    intro hcontra
    have h2 := (List.append_eq_nil.mp hcontra).2
    have hr : matchKey p.employeeId p.time
        (ZktecoDeviceLogs.create
          ⟨some p.employeeId, some p.time, statusVal (freshInOut tr p.userId),
            name, false⟩ s).1 = true := by
      unfold matchKey
      rw [(create_fields_eq _ s).2.1, (create_fields_eq _ s).2.2]
      simp
    simp only [List.filter_cons, hr, if_true, List.filter_nil] at h2
    cases h2
  | cons l ls =>
    rw [pullStep_eq_write name tr s p l ls hex]
    unfold hasKey
    rw [show ((⟨s.logs.map (fun x => if matchKey p.employeeId p.time x then
        applyVals ⟨some p.employeeId, some p.time,
          statusVal (freshInOut tr p.userId), name, l.calculated⟩ x else x),
        s.atts, s.nextLogId, s.nextAttId⟩ : St)).logs =
        s.logs.map (fun x => if matchKey p.employeeId p.time x then
          applyVals ⟨some p.employeeId, some p.time,
            statusVal (freshInOut tr p.userId), name, l.calculated⟩ x else x) from rfl]
    rw [List.filter_map]
    intro hcontra
    rw [List.map_eq_nil_iff] at hcontra
    simp only [Function.comp_def] at hcontra
    have hfe : s.logs.filter (fun x => matchKey p.employeeId p.time
        (if matchKey p.employeeId p.time x then
          applyVals ⟨some p.employeeId, some p.time,
            statusVal (freshInOut tr p.userId), name, l.calculated⟩ x else x)) =
        s.logs.filter (matchKey p.employeeId p.time) := by
      apply List.filter_congr
      intro x hxmem
      exact writeMap_matchKey p _ name l.calculated p.employeeId p.time x
    rw [hfe, hex] at hcontra
    cases hcontra

theorem foldl_pullStep_hasKey_mono (name : String) (L : List Punch) :
    ∀ (acc : Tracker × St) (e t : Nat), hasKey acc.2 e t →
      hasKey (List.foldl (pullStep name) acc L).2 e t := by
  induction L with
  | nil => intro acc e t h; exact h
  | cons p rest ih =>
    intro acc e t h
    rw [List.foldl_cons]
    apply ih
    obtain ⟨tr, s⟩ := acc
    exact hasKey_pullStep name tr s p e t h

theorem foldl_pullStep_establishes (name : String) (L : List Punch) :
    ∀ (acc : Tracker × St) (p : Punch), p ∈ L →
      hasKey (List.foldl (pullStep name) acc L).2 p.employeeId p.time := by
  induction L with
  | nil => intro acc p hp; cases hp
  | cons q rest ih =>
    intro acc p hp
    rw [List.foldl_cons]
    rcases List.mem_cons.mp hp with hq | hp'
    · subst hq
      apply foldl_pullStep_hasKey_mono
      obtain ⟨tr, s⟩ := acc
      exact pullStep_establishes name tr s p
    · exact ih _ p hp'

theorem foldl_pullStep_writeonly (name : String) (L : List Punch) :
    ∀ (tr : Tracker) (s : St),
      (∀ p ∈ L, hasKey s p.employeeId p.time) →
      (List.foldl (pullStep name) (tr, s) L).2.atts = s.atts ∧
      (List.foldl (pullStep name) (tr, s) L).2.logs.length = s.logs.length := by
  induction L with
  | nil => intro tr s _; exact ⟨rfl, rfl⟩
  | cons p rest ih =>
    intro tr s h
    have hkeyp := h p (List.mem_cons_self p rest)
    rcases hex : s.logs.filter (matchKey p.employeeId p.time) with _ | ⟨l, ls⟩
    · exact absurd hex hkeyp
    · rw [List.foldl_cons]
      have heq := pullStep_eq_write name tr s p l ls hex
      rw [heq]
      have hrest : ∀ q ∈ rest,
          hasKey (⟨s.logs.map (fun x => if matchKey p.employeeId p.time x then
              applyVals ⟨some p.employeeId, some p.time,
                statusVal (freshInOut tr p.userId), name, l.calculated⟩ x else x),
            s.atts, s.nextLogId, s.nextAttId⟩ : St) q.employeeId q.time := by
        intro q hq
        have h2 := hasKey_pullStep name tr s p q.employeeId q.time
          (h q (List.mem_cons_of_mem p hq))
        rw [heq] at h2
        exact h2
      obtain ⟨ha, hl⟩ := ih _ _ hrest
      refine ⟨ha, ?_⟩
      rw [hl]
      exact List.length_map _ _


/-- C2 (amended): re-running the pull on the same input updates every
existing log in place — the second run adds no punch log (the log count is
unchanged) and neither creates nor mutates any attendance. (Full-state
idempotence fails: the rerun may overwrite the status of a log, see the
counterexample.) -/
theorem pull_rerun_updates_in_place (machines : List Machine) (devId : Nat)
    (name : String) (raws : List RawPunch) (s0 s1 : St)
    (h : action_pull_attendance_logs machines devId name raws s0 = Except.ok s1) :
    ∃ s2, action_pull_attendance_logs machines devId name raws s1 = Except.ok s2 ∧
      s2.atts = s1.atts ∧ s2.logs.length = s1.logs.length := by
  unfold action_pull_attendance_logs at h ⊢
  by_cases hr : raws.isEmpty = true
  · rw [if_pos hr] at h
    cases h
  · rw [if_neg hr] at h ⊢
    cases hp : normalizePunches machines devId raws with
    | error msg =>
      rw [hp] at h
      cases h
    | ok punches =>
      simp only [Except.map, hp] at h
      simp only [Except.map]
      injection h with h1
      subst h1
      refine ⟨_, rfl, ?_⟩
      have hkeys : ∀ p ∈ sortedPunches punches,
          hasKey (List.foldl (pullStep name) (emptyTracker, s0)
            (sortedPunches punches)).2 p.employeeId p.time :=
        fun p hp' => foldl_pullStep_establishes name (sortedPunches punches) _ p hp'
      exact foldl_pullStep_writeonly name (sortedPunches punches) emptyTracker _ hkeys

/-- Witness for `pull_rerun_updates_in_place`: one device user, one punch,
run over an empty store. -/
theorem pull_rerun_updates_in_place_witness :
    action_pull_attendance_logs [⟨"u1", 5, 1, "Alice"⟩] 5 "D" [⟨"u1", 200⟩]
        ⟨[], [], 0, 0⟩ =
      Except.ok ⟨[⟨0, some 1, some 200, PLStatus.checkIn, "D", false⟩],
        [⟨0, 1, 200, none⟩], 1, 1⟩ ∧
    ∃ s2, action_pull_attendance_logs [⟨"u1", 5, 1, "Alice"⟩] 5 "D" [⟨"u1", 200⟩]
        ⟨[⟨0, some 1, some 200, PLStatus.checkIn, "D", false⟩],
          [⟨0, 1, 200, none⟩], 1, 1⟩ = Except.ok s2 ∧
      s2.atts = [⟨0, 1, 200, none⟩] ∧ s2.logs.length = 1 :=
  ⟨by decide,
   pull_rerun_updates_in_place [⟨"u1", 5, 1, "Alice"⟩] 5 "D" [⟨"u1", 200⟩]
     ⟨[], [], 0, 0⟩
     ⟨[⟨0, some 1, some 200, PLStatus.checkIn, "D", false⟩], [⟨0, 1, 200, none⟩], 1, 1⟩
     (by decide)⟩

/-- Counterexample to C2 as stated: with an open attendance (check-in 100)
already present, pulling the single punch at 200 closes it and stores the
log with status Check Out; re-running the pull on the same input rewrites
the status of that log to Check In (the alternation status), so applying the
engine twice does not yield the state of applying it once. -/
theorem pull_twice_ne_once_cex :
    action_pull_attendance_logs [⟨"u1", 5, 1, "Alice"⟩] 5 "D" [⟨"u1", 200⟩]
        ⟨[], [⟨0, 1, 100, none⟩], 0, 1⟩ =
      Except.ok ⟨[⟨0, some 1, some 200, PLStatus.checkOut, "D", false⟩],
        [⟨0, 1, 100, some 200⟩], 1, 1⟩ ∧
    action_pull_attendance_logs [⟨"u1", 5, 1, "Alice"⟩] 5 "D" [⟨"u1", 200⟩]
        ⟨[⟨0, some 1, some 200, PLStatus.checkOut, "D", false⟩],
          [⟨0, 1, 100, some 200⟩], 1, 1⟩ =
      Except.ok ⟨[⟨0, some 1, some 200, PLStatus.checkIn, "D", false⟩],
        [⟨0, 1, 100, some 200⟩], 1, 1⟩ ∧
    (⟨[⟨0, some 1, some 200, PLStatus.checkIn, "D", false⟩],
        [⟨0, 1, 100, some 200⟩], 1, 1⟩ : St) ≠
      ⟨[⟨0, some 1, some 200, PLStatus.checkOut, "D", false⟩],
        [⟨0, 1, 100, some 200⟩], 1, 1⟩ := by
  refine ⟨by decide, by decide, by decide⟩


/-- C3 (amended): when a log already exists at (employee, exact UTC
timestamp), the pull updates it in place — no attendance is touched and no
log is added — and it preserves only the `calculated` flag (every matching
row keeps the flag of the found row); the status is NOT preserved: it is
overwritten with the freshly computed alternation status even when the
existing log is calculated. When no log exists, the row is created through
`ZktecoDeviceLogs.create` with the freshly computed status (which the
create override may further adjust). -/
theorem pull_existing_log_write_semantics (name : String) (tr : Tracker)
    (s : St) (p : Punch) (l : Log) (ls : List Log)
    (hex : s.logs.filter (matchKey p.employeeId p.time) = l :: ls) :
    (pullStep name (tr, s) p).2.atts = s.atts ∧
    (pullStep name (tr, s) p).2.logs.length = s.logs.length ∧
    (pullStep name (tr, s) p).2.logs =
      s.logs.map (fun x => if matchKey p.employeeId p.time x then
        applyVals ⟨some p.employeeId, some p.time,
          statusVal (freshInOut tr p.userId), name, l.calculated⟩ x else x) ∧
    (∀ x ∈ (pullStep name (tr, s) p).2.logs,
      matchKey p.employeeId p.time x = true →
        x.calculated = l.calculated ∧
        x.status = statusVal (freshInOut tr p.userId)) := by
  rw [pullStep_eq_write name tr s p l ls hex]
  refine ⟨rfl, List.length_map _ _, rfl, ?_⟩
  intro x hx hkey
  rcases List.mem_map.mp hx with ⟨y, hymem, hyx⟩
  by_cases hy : matchKey p.employeeId p.time y = true
  · rw [if_pos hy] at hyx
    rw [← hyx]
    exact ⟨rfl, rfl⟩
  · rw [if_neg hy] at hyx
    rw [← hyx] at hkey
    exact absurd hkey hy

/-- Witness for `pull_existing_log_write_semantics`: a calculated existing
log at the key of the incoming punch. -/
theorem pull_existing_log_write_semantics_witness :
    (⟨[⟨0, some 1, some 200, PLStatus.checkOut, "Old", true⟩], [], 1, 0⟩ : St).logs.filter
        (matchKey (⟨"u1", 200, 1⟩ : Punch).employeeId (⟨"u1", 200, 1⟩ : Punch).time) =
      [⟨0, some 1, some 200, PLStatus.checkOut, "Old", true⟩] ∧
    (pullStep "D" (emptyTracker,
        ⟨[⟨0, some 1, some 200, PLStatus.checkOut, "Old", true⟩], [], 1, 0⟩)
      (⟨"u1", 200, 1⟩ : Punch)).2.atts = [] ∧
    (pullStep "D" (emptyTracker,
        ⟨[⟨0, some 1, some 200, PLStatus.checkOut, "Old", true⟩], [], 1, 0⟩)
      (⟨"u1", 200, 1⟩ : Punch)).2.logs.length = 1 :=
  ⟨by decide,
   (pull_existing_log_write_semantics "D" emptyTracker
      ⟨[⟨0, some 1, some 200, PLStatus.checkOut, "Old", true⟩], [], 1, 0⟩
      ⟨"u1", 200, 1⟩ ⟨0, some 1, some 200, PLStatus.checkOut, "Old", true⟩ []
      (by decide)).1,
   (pull_existing_log_write_semantics "D" emptyTracker
      ⟨[⟨0, some 1, some 200, PLStatus.checkOut, "Old", true⟩], [], 1, 0⟩
      ⟨"u1", 200, 1⟩ ⟨0, some 1, some 200, PLStatus.checkOut, "Old", true⟩ []
      (by decide)).2.1⟩

/-- Counterexample to C3 as stated: the existing log at (employee 1,
time 200) has `calculated = true` and status Check Out; pulling the same
punch again overwrites the status to Check In (the freshly computed
alternation status), so the existing calculated status is NOT preserved —
only the flag itself is. -/
theorem pull_calculated_status_overwritten_cex :
    action_pull_attendance_logs [⟨"u1", 5, 1, "Alice"⟩] 5 "D" [⟨"u1", 200⟩]
        ⟨[⟨0, some 1, some 200, PLStatus.checkOut, "Old", true⟩], [], 1, 0⟩ =
      Except.ok ⟨[⟨0, some 1, some 200, PLStatus.checkIn, "D", true⟩], [], 1, 0⟩ ∧
    PLStatus.checkIn ≠ PLStatus.checkOut := by
  refine ⟨by decide, by decide⟩


theorem normalizePunches_error_of_dup (machines : List Machine) (devId : Nat) :
    ∀ raws : List RawPunch,
      (∃ r ∈ raws, 1 < (machinesFor machines devId r.userId).length) →
      ∃ ms : List Machine, 1 < ms.length ∧ (∀ m ∈ ms, m ∈ machines) ∧
        normalizePunches machines devId raws =
          Except.error (dupMsg (ms.map Machine.employeeName)) := by
  intro raws
  induction raws with
  | nil =>
    rintro ⟨r, hr, -⟩
    cases hr
  | cons r rs ih =>
    rintro ⟨r0, hr0, hdup⟩
    by_cases hlen : 1 < (machinesFor machines devId r.userId).length
    · refine ⟨machinesFor machines devId r.userId, hlen, ?_, ?_⟩
      · intro m hm
        exact List.mem_of_mem_filter hm
      · simp only [normalizePunches]
        rw [if_pos hlen]
    · have hr0' : r0 ∈ rs := by
        rcases List.mem_cons.mp hr0 with hq | h'
        · subst hq
          exact absurd hdup hlen
        · exact h'
      obtain ⟨ms, h1, h2, h3⟩ := ih ⟨r0, hr0', hdup⟩
      refine ⟨ms, h1, h2, ?_⟩
      simp only [normalizePunches]
      rw [if_neg hlen]
      rcases hms : machinesFor machines devId r.userId with _ | ⟨m, rest⟩
      · simp only [hms]
        exact h3
      · rcases rest with _ | ⟨m2, rest2⟩
        · simp only [hms, h3, Except.map]
        · rw [hms] at hlen
          simp at hlen


/-- C5 (amended): when some raw punch in the batch resolves to more than
one machine row, the pull raises the duplicate-identifier error whose
message lists the linked employee names of the colliding rows (at least
two); the raise aborts the ENTIRE pull — no punch of any user, including
other users in the same batch, is persisted (the action returns an error
and no state). -/
theorem pull_duplicate_id_error_aborts (machines : List Machine) (devId : Nat)
    (name : String) (raws : List RawPunch) (s : St)
    (hne : raws.isEmpty = false)
    (hdup : ∃ r ∈ raws, 1 < (machinesFor machines devId r.userId).length) :
    ∃ ms : List Machine, 1 < ms.length ∧ (∀ m ∈ ms, m ∈ machines) ∧
      action_pull_attendance_logs machines devId name raws s =
        Except.error (dupMsg (ms.map Machine.employeeName)) := by
  obtain ⟨ms, h1, h2, h3⟩ := normalizePunches_error_of_dup machines devId raws hdup
  refine ⟨ms, h1, h2, ?_⟩
  unfold action_pull_attendance_logs
  rw [hne]
  simp only [Bool.false_eq_true, if_false, h3, Except.map]

/-- Witness for `pull_duplicate_id_error_aborts`: two machine rows share
the device-side id `"u1"`; the batch also carries a punch of the distinct
user `"u2"`. -/
theorem pull_duplicate_id_error_aborts_witness :
    ([⟨"u2", 100⟩, ⟨"u1", 200⟩] : List RawPunch).isEmpty = false ∧
    (∃ r ∈ ([⟨"u2", 100⟩, ⟨"u1", 200⟩] : List RawPunch),
      1 < (machinesFor
        [⟨"u1", 5, 1, "Alice"⟩, ⟨"u1", 5, 2, "Bob"⟩, ⟨"u2", 5, 3, "Carol"⟩]
        5 r.userId).length) ∧
    ∃ ms : List Machine, 1 < ms.length ∧
      (∀ m ∈ ms, m ∈ ([⟨"u1", 5, 1, "Alice"⟩, ⟨"u1", 5, 2, "Bob"⟩,
        ⟨"u2", 5, 3, "Carol"⟩] : List Machine)) ∧
      action_pull_attendance_logs
        [⟨"u1", 5, 1, "Alice"⟩, ⟨"u1", 5, 2, "Bob"⟩, ⟨"u2", 5, 3, "Carol"⟩] 5 "D"
        [⟨"u2", 100⟩, ⟨"u1", 200⟩] ⟨[], [], 0, 0⟩ =
        Except.error (dupMsg (ms.map Machine.employeeName)) :=
  ⟨by decide, ⟨⟨"u1", 200⟩, by decide, by decide⟩,
   pull_duplicate_id_error_aborts
     [⟨"u1", 5, 1, "Alice"⟩, ⟨"u1", 5, 2, "Bob"⟩, ⟨"u2", 5, 3, "Carol"⟩] 5 "D"
     [⟨"u2", 100⟩, ⟨"u1", 200⟩] ⟨[], [], 0, 0⟩ (by decide)
     ⟨⟨"u1", 200⟩, by decide, by decide⟩⟩

/-- Counterexample to C5 as stated: with the duplicate id `"u1"` (Alice
and Bob) and a further punch for the distinct user `"u2"` of Carol in the same
batch, the pull raises the duplicate error naming Alice and Bob — but it
returns no successful state at all, so the punch of Carol is NOT processed:
the batch does not complete for other users. -/
theorem pull_duplicate_other_users_not_processed_cex :
    action_pull_attendance_logs
        [⟨"u1", 5, 1, "Alice"⟩, ⟨"u1", 5, 2, "Bob"⟩, ⟨"u2", 5, 3, "Carol"⟩] 5 "D"
        [⟨"u2", 100⟩, ⟨"u1", 200⟩] ⟨[], [], 0, 0⟩ =
      Except.error "Duplicate Biometric User ID detected for employees: Alice, Bob" ∧
    (action_pull_attendance_logs
        [⟨"u1", 5, 1, "Alice"⟩, ⟨"u1", 5, 2, "Bob"⟩, ⟨"u2", 5, 3, "Carol"⟩] 5 "D"
        [⟨"u2", 100⟩, ⟨"u1", 200⟩] ⟨[], [], 0, 0⟩).isOk = false := by
  refine ⟨by decide, by decide⟩


theorem altStatuses_succ (k : Nat) :
    altStatuses (k + 1) = altStatuses k ++ [altElem k] := by
  unfold altStatuses altElem
  rw [List.range_succ, List.map_append]
  rfl

theorem freshInOut_of_altStatuses (tr : Tracker) (u : String) (k : Nat)
    (h : tr u = altStatuses k) : freshInOut tr u = altElem k := by
  unfold freshInOut
  rw [h]
  cases k with
  | zero => rfl
  | succ k' =>
    rw [altStatuses_succ, List.getLast?_concat]
    by_cases hk : k' % 2 = 0
    · have hk1 : (k' + 1) % 2 = 1 := by omega
      simp [altElem, hk, hk1]
    · have hk1 : (k' + 1) % 2 = 0 := by omega
      simp [altElem, hk, hk1]

theorem pullStep_fst (name : String) (tr : Tracker) (s : St) (p : Punch) :
    (pullStep name (tr, s) p).1 =
      fun u => if u = p.userId then tr u ++ [freshInOut tr p.userId] else tr u := by
  cases hex : s.logs.filter (matchKey p.employeeId p.time) with
  | nil => rw [pullStep_eq_create name tr s p hex]
  | cons l ls => rw [pullStep_eq_write name tr s p l ls hex]

theorem foldl_pullStep_tracker (name : String) (L : List Punch) :
    ∀ (tr : Tracker) (s : St) (u : String) (k : Nat),
      tr u = altStatuses k →
      (List.foldl (pullStep name) (tr, s) L).1 u =
        altStatuses (k + L.countP (fun p => p.userId == u)) := by
  induction L with
  | nil =>
    intro tr s u k h
    rw [List.countP_nil]
    exact h
  | cons p rest ih =>
    intro tr s u k h
    rw [List.foldl_cons, List.countP_cons]
    have hstep : pullStep name (tr, s) p =
        ((pullStep name (tr, s) p).1, (pullStep name (tr, s) p).2) := rfl
    rw [hstep, pullStep_fst name tr s p]
    by_cases hu : u = p.userId
    · have h' : tr p.userId = altStatuses k := by
        rw [← hu]
        exact h
      have htr' : (fun v => if v = p.userId then tr v ++ [freshInOut tr p.userId] else tr v) u =
          altStatuses (k + 1) := by
        simp only [hu, if_pos rfl]
        rw [h', freshInOut_of_altStatuses tr p.userId k h', ← altStatuses_succ]
        simp
      rw [ih _ _ u (k + 1) htr']
      have hc : (p.userId == u) = true := beq_iff_eq.mpr hu.symm
      rw [hc]
      simp only [if_true]
      congr 1
      omega
    · have htr' : (fun v => if v = p.userId then tr v ++ [freshInOut tr p.userId] else tr v) u =
          altStatuses k := by
        simp only [if_neg hu]
        exact h
      rw [ih _ _ u k htr']
      have hc : (p.userId == u) = false := by
        rw [beq_eq_false_iff_ne]
        intro hc'
        exact hu hc'.symm
      rw [hc]
      simp


/-- C7: the pull sorts the resolved punches by (device-user id, UTC
timestamp) — so punches are grouped per user and, within each group,
processed in ascending timestamp order — and the per-user tracker
assigns the first processed punch Check-in and alternates thereafter,
independently of elapsed time: after the fold it holds exactly the
alternating sequence whose length is the size of the group. -/
theorem pull_sort_and_alternation (punches : List Punch) (u name : String) (s : St) :
    List.Sorted punchLE (sortedPunches punches) ∧
    ((sortedPunches punches).filter (fun p => p.userId == u)).Pairwise
      (fun a b => a.time ≤ b.time) ∧
    (List.foldl (pullStep name) (emptyTracker, s) (sortedPunches punches)).1 u =
      altStatuses (punches.countP (fun p => p.userId == u)) := by
  have hsorted : List.Sorted punchLE (sortedPunches punches) :=
    List.sorted_insertionSort punchLE punches
  refine ⟨hsorted, ?_, ?_⟩
  · have hsub : ((sortedPunches punches).filter (fun p => p.userId == u)).Sublist
        (sortedPunches punches) := List.filter_sublist _
    have hpw : ((sortedPunches punches).filter (fun p => p.userId == u)).Pairwise punchLE :=
      List.Pairwise.sublist hsub hsorted
    refine List.Pairwise.imp_of_mem ?_ hpw
    intro a b ha hb hab
    have hau : a.userId = u := beq_iff_eq.mp (List.mem_filter.mp ha).2
    have hbu : b.userId = u := beq_iff_eq.mp (List.mem_filter.mp hb).2
    unfold punchLE at hab
    rcases hab with hlt | ⟨-, hle⟩
    · rw [hau, hbu] at hlt
      exact absurd hlt (lt_irrefl u)
    · exact hle
  · have h0 : emptyTracker u = altStatuses 0 := rfl
    rw [foldl_pullStep_tracker name (sortedPunches punches) emptyTracker s u 0 h0]
    rw [Nat.zero_add]
    congr 1
    exact (List.perm_insertionSort punchLE punches).countP_eq _

end Zkteco
